import Mathlib

/-!
Verification of the interactive process supervisor embedded in
`src/my_agent/__init__.py` (method `create_run_agent_commands`), of the
base64 instruction transport built around it, and of
`populate_context_post_run`.

The supervisor is the expect script written by the generated bash script
(source lines 288-367).  The Python f-string emits the expect file with
patterns such as `-re "\[Y/n\]|\[y/N\]|\(yes/no\)"`.  The expect command
receives its pattern-action pairs as one brace-quoted Tcl word and splits
it with Tcl list parsing, which performs backslash substitution on the
double-quoted elements: a backslash before `[`, `.` or `(` is consumed.
The regular expressions that actually reach the matching engine are
therefore

  rule 1 (confirmation):  [Y/n]|[y/N]|(yes/no)     -- a CHARACTER CLASS:
                          any one of the characters Y, /, n, or y, /, N,
                          or the literal string yes/no
  rule 2 (numbered):      1. Yes|1. Continue|1. Accept
                          -- the dot is the any-character wildcard
  rule 3 (completion):    Done|Completed|Finished|Success  -- literal,
                          case sensitive

(verified against tclsh: list splitting of the braced block yields exactly
these pattern strings).  Tcl regexes use leftmost-longest matching; after a
match, expect discards the buffer through the end of the match, and
`exp_continue` re-evaluates the rules on the remaining buffer before
reading more input.  The embedding below models that behaviour.
-/

namespace AgentSpec

/-! ## Pattern rules of the expect script (source lines 316-336) -/

/-- Characters matched by the character classes of the first expect rule,
`[Y/n]|[y/N]`, after Tcl backslash substitution of `\[Y/n\]|\[y/N\]`. -/
def isConfirmChar (c : Char) : Bool :=
  c == 'Y' || c == 'y' || c == 'N' || c == 'n' || c == '/'

/-- Leftmost-longest match of the first rule regex
`[Y/n]|[y/N]|(yes/no)` against the buffer: `none` when there is no match,
`some r` with `r` the part of the buffer after the matched span otherwise.
The third alternative `yes/no` starts with `y`, itself a class character,
so the leftmost match starts at the first class character; there the match
is `yes/no` (length 6) when that literal starts there, else one character. -/
def rule1Split : List Char → Option (List Char)
  | [] => none
  | c :: rest =>
    if isConfirmChar c then
      if c == 'y' && List.isPrefixOf ("es/no".toList) rest then some (rest.drop 5)
      else some rest
    else rule1Split rest

/-- Leftmost match of the second rule regex `1. Yes|1. Continue|1. Accept`
(dot = any character, including newline, after Tcl ate the backslash of
`1\. Yes`).  Returns the buffer part after the matched span. -/
def rule2Split : List Char → Option (List Char)
  | c :: d :: rest =>
    if c == '1' && List.isPrefixOf (" Yes".toList) rest then some (rest.drop 4)
    else if c == '1' && List.isPrefixOf (" Continue".toList) rest then some (rest.drop 9)
    else if c == '1' && List.isPrefixOf (" Accept".toList) rest then some (rest.drop 7)
    else rule2Split (d :: rest)
  | _ => none

/-- Leftmost match of the third rule regex
`Done|Completed|Finished|Success` (case sensitive), returning the buffer
part after the matched span. -/
def rule3Split : List Char → Option (List Char)
  | [] => none
  | c :: rest =>
    if List.isPrefixOf ("Done".toList) (c :: rest) then some (rest.drop 3)
    else if List.isPrefixOf ("Completed".toList) (c :: rest) then some (rest.drop 8)
    else if List.isPrefixOf ("Finished".toList) (c :: rest) then some (rest.drop 7)
    else if List.isPrefixOf ("Success".toList) (c :: rest) then some (rest.drop 6)
    else rule3Split rest

/-- An auto-response written back into the pty: the sleep that precedes the
`send` (milliseconds) and the text sent. -/
structure Response where
  delayMs : Nat
  payload : List Char
deriving DecidableEq, Repr

/-- Rule 1 action: `send "y\r"` (no sleep). -/
def respConfirm : Response := ⟨0, ['y', '\r']⟩

/-- Rule 2 action: `sleep 0.3` then `send "\r"`. -/
def respEnter : Response := ⟨300, ['\r']⟩

/-- Rule 3 action (after `set task_done 1`): `sleep 2` then `send "\x03"`
(Ctrl-C). -/
def respInterrupt : Response := ⟨2000, [Char.ofNat 3]⟩

/-- State of the expect interaction loop: the unconsumed output buffer, the
`task_done` flag, and the log of responses sent so far. -/
structure LoopState where
  buffer : List Char
  task_done : Bool
  sent : List Response
deriving DecidableEq, Repr

/-- State right after `spawn`: empty buffer, `set task_done 0`. -/
def initState : LoopState := ⟨[], false, []⟩

/-- One matching attempt of the expect command: the three `-re` rules are
tried in the order they are listed; the first whose regex matches the
buffer fires, consuming the buffer through the end of its match.  Rule 3
additionally runs `set task_done 1`. -/
def fireOnce (st : LoopState) : Option LoopState :=
  match rule1Split st.buffer, rule2Split st.buffer, rule3Split st.buffer with
  | some r, _, _ => some ⟨r, st.task_done, st.sent ++ [respConfirm]⟩
  | none, some r, _ => some ⟨r, st.task_done, st.sent ++ [respEnter]⟩
  | none, none, some r => some ⟨r, true, st.sent ++ [respInterrupt]⟩
  | none, none, none => none

/-- The `exp_continue` loop: keep firing rules on the remaining buffer until
none matches.  Each firing consumes at least one buffered character (every
match of the three regexes is non-empty), so `buffer.length + 1` rounds of
fuel always reach the fixpoint; `drainFuel_no_more` below proves it. -/
def drainFuel : Nat → LoopState → LoopState
  | 0, st => st
  | n + 1, st =>
    match fireOnce st with
    | none => st
    | some st2 => drainFuel n st2

/-- Processing of one chunk of child output: append it to the accumulated
buffer and run the rule loop to its fixpoint. -/
def processChunk (st : LoopState) (s : List Char) : LoopState :=
  drainFuel ((st.buffer ++ s).length + 1) ⟨st.buffer ++ s, st.task_done, st.sent⟩

/-- External events driving the expect loop: a chunk of child output, end of
file with the child exit status obtained by `wait`, or expiry of the
`set timeout 1500` timer while waiting. -/
inductive Event where
  | chunk (s : List Char)
  | eofEv (status : Nat)
  | timeoutEv
deriving DecidableEq, Repr

/-- Phase of the supervisor: still interacting, or the expect process has
exited with the given code (`exit 0`, `exit $exit_code` or `exit 124`). -/
inductive Phase where
  | running (st : LoopState)
  | exited (code : Nat)
deriving DecidableEq, Repr

/-- Transition of the expect script on one event (source lines 316-356):
chunks feed the rule loop; on eof the handler exits 0 when `task_done` is
set and with the child status otherwise; on timeout it exits 0 when
`task_done` is set and 124 otherwise.  After `exit` no event is processed. -/
def stepEvent : Phase → Event → Phase
  | .running st, .chunk s => .running (processChunk st s)
  | .running st, .eofEv status => .exited (if st.task_done then 0 else status)
  | .running st, .timeoutEv => .exited (if st.task_done then 0 else 124)
  | .exited c, _ => .exited c

/-- A whole supervised run: fold the event trace from the spawn state. -/
def runEvents (evs : List Event) : Phase :=
  evs.foldl stepEvent (Phase.running initState)

/-- Tail of the generated bash script (source lines 362-366): it captures
the expect exit status in `EXIT_CODE` and ends with `exit $EXIT_CODE`,
propagating the supervisor code unchanged. -/
def wrapperExitCode (agentCode : Nat) : Nat := agentCode

/-! ## Sanity of the fuel bound for the rule loop -/

theorem rule1Split_shrink : ∀ s r, rule1Split s = some r → r.length < s.length := by
  intro s
  induction s with
  | nil => intro r h; simp [rule1Split] at h
  | cons c rest ih =>
    intro r h
    simp only [rule1Split] at h
    split at h
    · split at h
      · injection h with h2
        subst h2
        simp only [List.length_drop, List.length_cons]
        omega
      · injection h with h2
        subst h2
        simp only [List.length_cons]
        omega
    · have := ih r h
      simp only [List.length_cons]
      omega

theorem rule2Split_shrink : ∀ s r, rule2Split s = some r → r.length < s.length := by
  intro s
  induction s with
  | nil => intro r h; simp [rule2Split] at h
  | cons c rest ih =>
    intro r h
    cases rest with
    | nil => simp [rule2Split] at h
    | cons d rest2 =>
      simp only [rule2Split] at h
      split at h
      · injection h with h2
        subst h2
        simp only [List.length_drop, List.length_cons]
        omega
      · split at h
        · injection h with h2
          subst h2
          simp only [List.length_drop, List.length_cons]
          omega
        · split at h
          · injection h with h2
            subst h2
            simp only [List.length_drop, List.length_cons]
            omega
          · have := ih r h
            simp only [List.length_cons] at this ⊢
            omega

theorem rule3Split_shrink : ∀ s r, rule3Split s = some r → r.length < s.length := by
  intro s
  induction s with
  | nil => intro r h; simp [rule3Split] at h
  | cons c rest ih =>
    intro r h
    simp only [rule3Split] at h
    split at h
    · injection h with h2
      subst h2
      simp only [List.length_drop, List.length_cons]
      omega
    · split at h
      · injection h with h2
        subst h2
        simp only [List.length_drop, List.length_cons]
        omega
      · split at h
        · injection h with h2
          subst h2
          simp only [List.length_drop, List.length_cons]
          omega
        · split at h
          · injection h with h2
            subst h2
            simp only [List.length_drop, List.length_cons]
            omega
          · have := ih r h
            simp only [List.length_cons]
            omega

theorem fireOnce_shrink (st st' : LoopState) (h : fireOnce st = some st') :
    st'.buffer.length < st.buffer.length := by
  unfold fireOnce at h
  split at h
  · rename_i r heq
    injection h with h2
    subst h2
    exact rule1Split_shrink _ _ heq
  · rename_i r heq1 heq2
    injection h with h2
    subst h2
    exact rule2Split_shrink _ _ heq2
  · rename_i r heq1 heq2 heq3
    injection h with h2
    subst h2
    exact rule3Split_shrink _ _ heq3
  · exact absurd h (by simp)

/-- With fuel exceeding the buffer length, the rule loop reaches a true
fixpoint: no rule matches the remaining buffer, exactly as when the real
expect command goes back to waiting for input. -/
theorem drainFuel_no_more : ∀ (n : Nat) (st : LoopState), st.buffer.length < n →
    fireOnce (drainFuel n st) = none := by
  intro n
  induction n with
  | zero => intro st h; omega
  | succ n ih =>
    intro st h
    unfold drainFuel
    cases hf : fireOnce st with
    | none => exact hf
    | some st2 =>
      have := fireOnce_shrink st st2 hf
      exact ih st2 (by omega)

theorem processChunk_fixpoint (st : LoopState) (s : List Char) :
    fireOnce (processChunk st s) = none :=
  drainFuel_no_more _ _ (Nat.lt_succ_self _)

/-! ## Run-level lemmas -/

theorem runEvents_append (evs l : List Event) :
    runEvents (evs ++ l) = List.foldl stepEvent (runEvents evs) l := by
  simp [runEvents, List.foldl_append]

theorem foldl_exited (l : List Event) (c : Nat) :
    List.foldl stepEvent (Phase.exited c) l = Phase.exited c := by
  induction l with
  | nil => rfl
  | cons e t ih => simpa [stepEvent] using ih

/-! ## Claims C1-C4: exit code reporting -/

/-- Claim C1: in every run in which the completion rule has set the
`task_done` flag, the supervisor's final exit code is 0, whether the run
then ends by child eof (whatever the child's own exit status `n`) or by
timeout. -/
theorem completion_precedence_exit_zero (evs : List Event) (st : LoopState) (n : Nat)
    (h : runEvents evs = Phase.running st) (hd : st.task_done = true) :
    runEvents (evs ++ [Event.eofEv n]) = Phase.exited 0 ∧
    runEvents (evs ++ [Event.timeoutEv]) = Phase.exited 0 := by
  rw [runEvents_append, runEvents_append, h]
  simp [stepEvent, hd]

theorem completion_precedence_exit_zero_witness :
    runEvents ([Event.chunk ("Success".toList)] ++ [Event.eofEv 9]) = Phase.exited 0 ∧
    runEvents ([Event.chunk ("Success".toList)] ++ [Event.timeoutEv]) = Phase.exited 0 :=
  completion_precedence_exit_zero [Event.chunk ("Success".toList)]
    ⟨[], true, [respInterrupt]⟩ 9 (by decide) rfl

/-- Claim C2, supervisor-side evaluation (the claim's no-orphan conjunct
is a code bug): in every run in which the completion rule never fired and
the timeout expires while the run is still in the interacting phase, the
expect script exits with code 124 and processes nothing further.  That
exit is the timeout handler's whole behaviour — the handler issues no kill
and no close or wait of the spawned child, so the child's termination is
left to the pty teardown of process exit, which a SIGHUP-immune child
survives; the claimed "child confirmed terminated, no orphaned process"
is not established by the script. -/
theorem timeout_without_completion_exits_124 (evs evs2 : List Event) (st : LoopState)
    (h : runEvents evs = Phase.running st) (hd : st.task_done = false) :
    runEvents (evs ++ Event.timeoutEv :: evs2) = Phase.exited 124 := by
  have : evs ++ Event.timeoutEv :: evs2 = (evs ++ [Event.timeoutEv]) ++ evs2 := by simp
  rw [this, runEvents_append, runEvents_append, h]
  simp [stepEvent, hd, foldl_exited]

theorem timeout_without_completion_exits_124_witness :
    runEvents [Event.timeoutEv, Event.eofEv 7] = Phase.exited 124 :=
  timeout_without_completion_exits_124 [] [Event.eofEv 7] initState rfl rfl

/-- Claim C3, counterexample: a run in which a completion keyword was seen
and which then ends in the timeout terminal state exits with code 0, not
124 — the timeout handler checks `task_done` first, so the spec sentence
that a timeout always resolves to 124 is false. -/
theorem timeout_after_completion_not_124 :
    runEvents [Event.chunk ("Success".toList), Event.timeoutEv] = Phase.exited 0 ∧
    runEvents [Event.chunk ("Success".toList), Event.timeoutEv] ≠ Phase.exited 124 := by
  decide

/-- Claim C3 as amended: every run that ends in the timeout terminal state
resolves, without raising, to exit code 124 when the completion flag was
never set and to exit code 0 when it was (completion takes precedence). -/
theorem timeout_exit_code_resolution (evs : List Event) (st : LoopState)
    (h : runEvents evs = Phase.running st) :
    runEvents (evs ++ [Event.timeoutEv]) = Phase.exited (if st.task_done then 0 else 124) := by
  rw [runEvents_append, h]
  simp [stepEvent]

theorem timeout_exit_code_resolution_witness :
    runEvents ([Event.chunk ("hi".toList)] ++ [Event.timeoutEv]) = Phase.exited 124 :=
  timeout_exit_code_resolution [Event.chunk ("hi".toList)] ⟨['h', 'i'], false, []⟩ (by decide)

/-- Claim C4: when the child exits on its own with status `n` and the
completion flag was never set, the eof handler exits with exactly `n`, and
the wrapping bash script propagates that code unchanged. -/
theorem normal_exit_passthrough (evs : List Event) (st : LoopState) (n : Nat)
    (h : runEvents evs = Phase.running st) (hd : st.task_done = false) :
    runEvents (evs ++ [Event.eofEv n]) = Phase.exited n ∧ wrapperExitCode n = n := by
  rw [runEvents_append, h]
  simp [stepEvent, hd, wrapperExitCode]

theorem normal_exit_passthrough_witness :
    runEvents ([] ++ [Event.eofEv 3]) = Phase.exited 3 ∧ wrapperExitCode 3 = 3 :=
  normal_exit_passthrough [] initState 3 rfl rfl

/-! ## Spec-side vocabulary for the pattern claims (C5-C8)

The claims speak of case-insensitive matching and of buffers containing a
given text; the definitions below state those notions and are compared
with the source-derived matchers above. -/

/-- Spec-side: `c` is the character `p` up to letter case. -/
def charCaseVariant (p c : Char) : Bool :=
  c == p || (p.isAlpha && (c.toNat == p.toNat + 32 || c.toNat + 32 == p.toNat))

/-- Spec-side: `t` is the text `p` written in some (possibly mixed) letter
case. -/
def specCaseVariant : List Char → List Char → Bool
  | [], [] => true
  | p :: ps, c :: cs => charCaseVariant p c && specCaseVariant ps cs
  | _, _ => false

/-- Spec-side: the text `pat` occurs contiguously inside the second list. -/
def containsSeq (pat : List Char) : List Char → Bool
  | [] => pat.isEmpty
  | c :: rest => List.isPrefixOf pat (c :: rest) || containsSeq pat rest

theorem charCaseVariant_slash (c : Char) (h : charCaseVariant '/' c = true) : c = '/' := by
  have hA : ('/').isAlpha = false := by decide
  simp [charCaseVariant, hA] at h
  exact h

theorem slash_mem_of_caseVariant : ∀ (p t : List Char),
    specCaseVariant p t = true → '/' ∈ p → '/' ∈ t := by
  intro p
  induction p with
  | nil => intro t h hm; simp at hm
  | cons q ps ih =>
    intro t h hm
    cases t with
    | nil => simp [specCaseVariant] at h
    | cons c cs =>
      simp only [specCaseVariant, Bool.and_eq_true] at h
      obtain ⟨hc, hrest⟩ := h
      rcases List.mem_cons.mp hm with hq | hps
      · have hc' : c = '/' := charCaseVariant_slash c (by rw [← hq] at hc; exact hc)
        subst hc'
        exact List.mem_cons_self _ _
      · exact List.mem_cons_of_mem _ (ih cs hrest hps)

theorem mem_of_isPrefixOf : ∀ (t s : List Char) (c : Char),
    List.isPrefixOf t s = true → c ∈ t → c ∈ s := by
  intro t
  induction t with
  | nil => intro s c h hm; simp at hm
  | cons a t' ih =>
    intro s c h hm
    cases s with
    | nil => simp [List.isPrefixOf] at h
    | cons b s' =>
      simp only [List.isPrefixOf, Bool.and_eq_true, beq_iff_eq] at h
      obtain ⟨hab, hps⟩ := h
      rcases List.mem_cons.mp hm with rfl | hct
      · rw [hab]
        exact List.mem_cons_self _ _
      · exact List.mem_cons_of_mem _ (ih s' c hps hct)

theorem mem_of_containsSeq : ∀ (s t : List Char) (c : Char),
    containsSeq t s = true → c ∈ t → c ∈ s := by
  intro s
  induction s with
  | nil =>
    intro t c h hm
    cases t with
    | nil => simp at hm
    | cons x xs => simp [containsSeq, List.isEmpty] at h
  | cons b s' ih =>
    intro t c h hm
    simp only [containsSeq, Bool.or_eq_true] at h
    rcases h with h | h
    · exact mem_of_isPrefixOf t (b :: s') c h hm
    · exact List.mem_cons_of_mem _ (ih t c h hm)

theorem rule1Split_isSome_of_mem : ∀ (s : List Char) (c : Char),
    isConfirmChar c = true → c ∈ s → ∃ r, rule1Split s = some r := by
  intro s
  induction s with
  | nil => intro c _ hm; simp at hm
  | cons d rest ih =>
    intro c hc hm
    by_cases hd : isConfirmChar d = true
    · simp only [rule1Split]
      rw [if_pos hd]
      split
      · exact ⟨_, rfl⟩
      · exact ⟨_, rfl⟩
    · rcases List.mem_cons.mp hm with rfl | hmem
      · exact absurd hc hd
      · obtain ⟨r, hr⟩ := ih c hc hmem
        refine ⟨r, ?_⟩
        simp only [rule1Split]
        rw [if_neg hd]
        exact hr

/-! ## Claims C5-C8: the interaction rules -/

/-- Claim C5: whenever the buffer contains any letter-case variant of the
bracketed yes/no prompts `[Y/n]`, `[y/N]` or `(yes/no)`, the first expect
rule (the confirmation rule) matches the buffer, it is the rule that
fires (it has the highest priority), and its action sends the text `y`
followed by a carriage return to the child.  (The Tcl-substituted regex is
the character class `[Y/n]|[y/N]|(yes/no)`, which matches every such
variant — all of them contain the class character `/`.) -/
theorem confirm_rule_case_variants_fire (st : LoopState) (t : List Char)
    (hvar : specCaseVariant ("[Y/n]".toList) t = true ∨
      specCaseVariant ("[y/N]".toList) t = true ∨
      specCaseVariant ("(yes/no)".toList) t = true)
    (hsub : containsSeq t st.buffer = true) :
    (rule1Split st.buffer).isSome = true ∧
    fireOnce st = some ⟨(rule1Split st.buffer).getD [], st.task_done, st.sent ++ [respConfirm]⟩ ∧
    respConfirm = ⟨0, ['y', '\r']⟩ := by
  have hslt : '/' ∈ t := by
    rcases hvar with h | h | h
    · exact slash_mem_of_caseVariant _ _ h (by decide)
    · exact slash_mem_of_caseVariant _ _ h (by decide)
    · exact slash_mem_of_caseVariant _ _ h (by decide)
  have hslb : '/' ∈ st.buffer := mem_of_containsSeq _ _ _ hsub hslt
  obtain ⟨r, hr⟩ := rule1Split_isSome_of_mem st.buffer '/' (by decide) hslb
  refine ⟨by rw [hr]; rfl, by simp [fireOnce, hr], rfl⟩

theorem confirm_rule_case_variants_fire_witness :
    (rule1Split ("Continue? (YES/NO): ".toList)).isSome = true ∧
    fireOnce ⟨"Continue? (YES/NO): ".toList, false, []⟩ =
      some ⟨(rule1Split ("Continue? (YES/NO): ".toList)).getD [], false, [respConfirm]⟩ ∧
    respConfirm = ⟨0, ['y', '\r']⟩ :=
  confirm_rule_case_variants_fire ⟨"Continue? (YES/NO): ".toList, false, []⟩
    ("(YES/NO)".toList) (Or.inr (Or.inr (by decide))) (by decide)

theorem rule3Split_isSome_eq : ∀ s : List Char,
    (rule3Split s).isSome =
      (containsSeq ("Done".toList) s || containsSeq ("Completed".toList) s ||
       containsSeq ("Finished".toList) s || containsSeq ("Success".toList) s) := by
  intro s
  induction s with
  | nil => decide
  | cons c rest ih =>
    simp only [rule3Split, containsSeq]
    cases h1 : List.isPrefixOf ("Done".toList) (c :: rest) <;>
      cases h2 : List.isPrefixOf ("Completed".toList) (c :: rest) <;>
        cases h3 : List.isPrefixOf ("Finished".toList) (c :: rest) <;>
          cases h4 : List.isPrefixOf ("Success".toList) (c :: rest) <;>
            simp [h1, h2, h3, h4, ih]

/-- Claim C6, counterexample: the completion regex is case sensitive and is
moreover preceded by the mangled confirmation rule, so neither the buffer
`done` nor even the exact keyword `Done` marks the task complete: in both
runs the confirmation rule fires (both words contain the class character
`n`), one `y`-response is sent, and `task_done` stays false. -/
theorem completion_rule_case_cex :
    runEvents [Event.chunk ("done".toList)] =
      Phase.running ⟨['e'], false, [respConfirm]⟩ ∧
    runEvents [Event.chunk ("Done".toList)] =
      Phase.running ⟨['e'], false, [respConfirm]⟩ := by
  decide

/-- Claim C6 as amended: the completion rule's regex
`Done|Completed|Finished|Success` matches exactly the buffers containing
one of those four strings with this exact letter case; the rule fires only
when neither higher-priority rule matches the buffer, and when it fires it
sets the `task_done` flag and, after a 2000 ms grace sleep, sends the
interrupt character Ctrl-C (0x03) to the child. -/
theorem completion_rule_amended (st : LoopState) :
    ((rule3Split st.buffer).isSome =
      (containsSeq ("Done".toList) st.buffer || containsSeq ("Completed".toList) st.buffer ||
       containsSeq ("Finished".toList) st.buffer || containsSeq ("Success".toList) st.buffer)) ∧
    (rule1Split st.buffer = none → rule2Split st.buffer = none →
      fireOnce st = (rule3Split st.buffer).map (fun r => ⟨r, true, st.sent ++ [respInterrupt]⟩) ∧
      respInterrupt = ⟨2000, [Char.ofNat 3]⟩) := by
  refine ⟨rule3Split_isSome_eq st.buffer, fun h1 h2 => ⟨?_, rfl⟩⟩
  cases h3 : rule3Split st.buffer with
  | none => simp [fireOnce, h1, h2, h3]
  | some r => simp [fireOnce, h1, h2, h3]

theorem completion_rule_amended_witness :
    fireOnce ⟨"Task Completed".toList, false, []⟩ =
      (rule3Split ("Task Completed".toList)).map (fun r => ⟨r, true, [respInterrupt]⟩) ∧
    respInterrupt = ⟨2000, [Char.ofNat 3]⟩ :=
  (completion_rule_amended ⟨"Task Completed".toList, false, []⟩).2 (by decide) (by decide)

/-- Claim C7, evaluation at the failing input: a single occurrence of the
confirmation prompt `[Y/n]` makes the confirmation rule fire three times —
once for each of the characters `Y`, `/`, `n` — because the regex that
reaches the engine is a character class, so three `y`-carriage-return
responses are sent for one prompt occurrence instead of exactly one. -/
theorem confirm_rule_fires_thrice :
    runEvents [Event.chunk ("[Y/n]".toList)] =
      Phase.running ⟨[']'], false, [respConfirm, respConfirm, respConfirm]⟩ := by
  decide

/-- Claim C8, evaluation at the failing inputs: a buffer that is exactly
the literal phrase `1. Yes` never reaches the numbered-choice rule — the
higher-priority confirmation rule eats it at the character `Y` and answers
`y` — while the buffer `1x Accept`, which contains none of the three
literal phrases, does fire the numbered-choice rule (300 ms delay, then a
bare carriage return), because the dot of `1\. Accept` reached the regex
engine as the any-character wildcard. -/
theorem numbered_rule_eval :
    runEvents [Event.chunk ("1. Yes".toList)] =
      Phase.running ⟨['e', 's'], false, [respConfirm]⟩ ∧
    runEvents [Event.chunk ("1x Accept".toList)] =
      Phase.running ⟨[], false, [respEnter]⟩ := by
  decide

/-! ## Claim C9: the base64 instruction transport

Source line 263 encodes the instruction's bytes with Python
`base64.b64encode`; the generated bash script recovers it on line 290 with
`INSTRUCTION=$(echo "{instruction_b64}" | base64 -d)`.  `echo` appends one
newline (ignored by `base64 -d`), and bash command substitution strips
every trailing newline byte from the captured output. -/

/-- Python dict assignment `d[k] = v` on a keyed association list. -/
def dictSet : List (String × Nat) → String → Nat → List (String × Nat)
  | [], k, v => [(k, v)]
  | p :: t, k, v => if p.1 == k then (k, v) :: t else p :: dictSet t k v

/-- Python dict lookup. -/
def dictGet (m : List (String × Nat)) (k : String) : Option Nat :=
  (m.find? (fun q => q.1 == k)).map Prod.snd

/-- Strict UTF-8 decoding of a byte sequence into its code points, as
Python `bytes.decode()` inside `Path.read_text()` performs it; `none`
models `UnicodeDecodeError`.  Well-formed sequences per RFC 3629: ASCII
(0x00-0x7F); two bytes 0xC2-0xDF then a continuation byte 0x80-0xBF (no
overlong forms); three bytes 0xE0-0xEF with the usual second-byte
restrictions for 0xE0 (no overlongs) and 0xED (no surrogates); four bytes
0xF0-0xF4 with the second-byte restrictions for 0xF0 and 0xF4 (code
points up to U+10FFFF only). -/
def utf8Decode : List Nat → Option (List Char)
  | [] => some []
  | b1 :: rest =>
    if b1 < 128 then
      (utf8Decode rest).map (fun cs => Char.ofNat b1 :: cs)
    else if 194 ≤ b1 ∧ b1 ≤ 223 then
      match rest with
      | b2 :: rest2 =>
        if 128 ≤ b2 ∧ b2 ≤ 191 then
          (utf8Decode rest2).map (fun cs => Char.ofNat ((b1 - 192) * 64 + (b2 - 128)) :: cs)
        else none
      | [] => none
    else if 224 ≤ b1 ∧ b1 ≤ 239 then
      match rest with
      | b2 :: b3 :: rest2 =>
        if (128 ≤ b2 ∧ b2 ≤ 191) ∧ (128 ≤ b3 ∧ b3 ≤ 191) ∧
            (b1 = 224 → 160 ≤ b2) ∧ (b1 = 237 → b2 ≤ 159) then
          (utf8Decode rest2).map (fun cs =>
            Char.ofNat ((b1 - 224) * 4096 + (b2 - 128) * 64 + (b3 - 128)) :: cs)
        else none
      | _ => none
    else if 240 ≤ b1 ∧ b1 ≤ 244 then
      match rest with
      | b2 :: b3 :: b4 :: rest2 =>
        if (128 ≤ b2 ∧ b2 ≤ 191) ∧ (128 ≤ b3 ∧ b3 ≤ 191) ∧ (128 ≤ b4 ∧ b4 ≤ 191) ∧
            (b1 = 240 → 144 ≤ b2) ∧ (b1 = 244 → b2 ≤ 143) then
          (utf8Decode rest2).map (fun cs =>
            Char.ofNat ((b1 - 240) * 262144 + (b2 - 128) * 4096 + (b3 - 128) * 64 + (b4 - 128)) :: cs)
        else none
      | _ => none
    else none

/-- The method `populate_context_post_run` (source lines 384-414):
`stdoutFile` is `some bytes` when `logs_dir/command-0/stdout.txt` exists
(holding its raw bytes — the pty transcript) and `none` otherwise;
`metadata` is the incoming `context.metadata`, with `none` modelling
Python `None`.  The method initialises the metadata to an empty dict when
it is `None`; when the file exists it calls `read_text()`, whose UTF-8
decoding raises `UnicodeDecodeError` on undecodable bytes (modelled by
`Except.error`); on the normal paths it stores the decoded character
length (0 when the file does not exist) under the key `output_length`. -/
def populate_context_post_run (stdoutFile : Option (List Nat))
    (metadata : Option (List (String × Nat))) : Except String (List (String × Nat)) :=
  let md := match metadata with
    | none => []
    | some m => m
  match stdoutFile with
  | some bs =>
    match utf8Decode bs with
    | some output => Except.ok (dictSet md "output_length" output.length)
    | none => Except.error "UnicodeDecodeError"
  | none => Except.ok (dictSet md "output_length" 0)

theorem dictGet_dictSet : ∀ (m : List (String × Nat)) (k : String) (v : Nat),
    dictGet (dictSet m k v) k = some v
  | [], k, v => by simp [dictGet, dictSet, List.find?]
  | p :: t, k, v => by
    cases hp : (p.1 == k) with
    | true => simp [dictGet, dictSet, hp, List.find?]
    | false =>
      have ih := dictGet_dictSet t k v
      simp [dictGet, dictSet, hp, List.find?] at ih ⊢
      exact ih

/-- Claim C10, counterexample: when `stdout.txt` exists and holds the
single byte 0xFF — a byte no valid UTF-8 sequence contains, and one a raw
pty transcript can easily produce — `read_text()` raises
`UnicodeDecodeError`: the method does not always return, so the sentence
that it never raises is false. -/
theorem populate_context_raises_cex :
    populate_context_post_run (some [255]) none = Except.error "UnicodeDecodeError" := rfl

/-- Claim C10 as amended: whenever the method returns normally, the
metadata it produces (initialised from `None` when needed) maps the key
`output_length` to the character length of the decoded stdout file when
the file exists and to 0 when it does not; however the method does not
always return — it raises `UnicodeDecodeError` exactly when the file
exists and its bytes are not valid UTF-8, so it returns normally exactly
when the file is absent or decodable. -/
theorem populate_context_output_length_amended (stdoutFile : Option (List Nat))
    (metadata : Option (List (String × Nat))) :
    (∀ d, populate_context_post_run stdoutFile metadata = Except.ok d →
      dictGet d "output_length" =
        some (((stdoutFile.bind utf8Decode).map List.length).getD 0)) ∧
    (populate_context_post_run stdoutFile metadata = Except.error "UnicodeDecodeError" ↔
      ∃ bs, stdoutFile = some bs ∧ utf8Decode bs = none) := by
  cases stdoutFile with
  | none =>
    refine ⟨fun d hd => ?_, by simp [populate_context_post_run]⟩
    simp [populate_context_post_run] at hd
    subst hd
    simp [dictGet_dictSet]
  | some bs =>
    cases hdec : utf8Decode bs with
    | none =>
      refine ⟨fun d hd => ?_, by simp [populate_context_post_run, hdec]⟩
      simp [populate_context_post_run, hdec] at hd
    | some cs =>
      refine ⟨fun d hd => ?_, by simp [populate_context_post_run, hdec]⟩
      simp [populate_context_post_run, hdec] at hd
      subst hd
      simp [dictGet_dictSet, hdec]

theorem populate_context_output_length_amended_witness :
    dictGet (dictSet [] "output_length" 2) "output_length" =
      some ((((some [97, 98] : Option (List Nat)).bind utf8Decode).map List.length).getD 0) :=
  (populate_context_output_length_amended (some [97, 98]) none).1
    (dictSet [] "output_length" 2) (by rfl)

end AgentSpec
